import Mathlib

/-!
# Verification of the GraphEditor edge-routing and registry engine

This file gives a shallow embedding, in Lean 4, of the core of the
GraphEditor repository (`GraphViewer.h` / `GraphViewer.cpp` /
`GraphEditor.cpp`) and proves or refutes the frozen specification claims
about it.

Modelling conventions:

* C++ `double` is modelled as `ℝ` (exact real arithmetic).
* `GPoint`/`GVector` are a single structure `GPoint` (the repository's
  own spec states that points and vectors are distinguished by usage
  only, not representation).
* The 2-D vector algebra (`rotate`, `normalizationOf`, `magnitudeOf`,
  `dot`, `unitToward`) lives in `GVector.h`, which is part of the
  repository but not among the provided source files; those definitions
  are modelled from the spec (see their doc comments).
* The node registry `std::set<std::shared_ptr<Node>>` is modelled as a
  `List NodeData`; node objects are identified by their `index` (ids of
  live nodes are unique in every state reachable by the public API, and
  theorems that need this carry it as a hypothesis).
* The edge registry `std::unordered_map<Node*, std::unordered_map<Node*,
  std::shared_ptr<Edge>>>` is modelled as an association list
  `List (ℕ × List (ℕ × EdgeData))` keyed by node ids, including the
  possibly-empty inner buckets that `operator[]` can create.
* `std::set<int> freeNodeIDs` is modelled as an ascending sorted
  duplicate-free `List ℕ`; `*begin()` is the head.
* Mutating operations have no error path in the C++ (no exceptions, no
  status returns); they are modelled as total functions `State → State`.
-/

namespace GraphEditor

/-! ## Points and vectors -/

/-- A 2-D point. Also used as a vector (the spec: "Points and vectors are
distinguished only by usage, not by representation"). -/
@[ext]
structure GPoint where
  x : ℝ
  y : ℝ

instance : Add GPoint := ⟨fun a b => ⟨a.x + b.x, a.y + b.y⟩⟩
instance : Sub GPoint := ⟨fun a b => ⟨a.x - b.x, a.y - b.y⟩⟩
instance : Neg GPoint := ⟨fun a => ⟨-a.x, -a.y⟩⟩

/-- Scalar scaling `v * k`, as used by the C++ (`unitToward(theta) * kNodeRadius`). -/
instance : HMul GPoint ℝ GPoint := ⟨fun v k => ⟨v.x * k, v.y * k⟩⟩

@[simp] theorem GPoint.add_def (a b : GPoint) : a + b = ⟨a.x + b.x, a.y + b.y⟩ := rfl
@[simp] theorem GPoint.sub_def (a b : GPoint) : a - b = ⟨a.x - b.x, a.y - b.y⟩ := rfl
@[simp] theorem GPoint.neg_def (a : GPoint) : -a = ⟨-a.x, -a.y⟩ := rfl
@[simp] theorem GPoint.smul_def (a : GPoint) (k : ℝ) : a * k = ⟨a.x * k, a.y * k⟩ := rfl

/-- Modelled from the spec: dot product of two vectors (`GVector.h` is not
among the provided sources). -/
def dot (a b : GPoint) : ℝ := a.x * b.x + a.y * b.y

/-- Modelled from the spec: vector magnitude `|v|` (`GVector.h` is not among
the provided sources). -/
noncomputable def magnitudeOf (v : GPoint) : ℝ := Real.sqrt (v.x ^ 2 + v.y ^ 2)

/-- Modelled from the spec: `normalize(v) = v / |v|`, with the spec's
zero-safe sentinel (the fallback direction is the unit vector at angle 0)
when `|v| = 0`. (`GVector.h` is not among the provided sources.) -/
noncomputable def normalizationOf (v : GPoint) : GPoint :=
  if magnitudeOf v = 0 then ⟨1, 0⟩ else ⟨v.x / magnitudeOf v, v.y / magnitudeOf v⟩

/-- Modelled from the spec: counter-clockwise rotation by `θ` radians using
the standard 2×2 rotation matrix (`GVector.h` is not among the provided
sources). -/
noncomputable def rotate (v : GPoint) (θ : ℝ) : GPoint :=
  ⟨v.x * Real.cos θ - v.y * Real.sin θ, v.x * Real.sin θ + v.y * Real.cos θ⟩

/-- Modelled from the spec: the unit vector at angle `θ` (used by the
self-loop placement: "placing a loop-arc center at distance nodeRadius from
the node center along that angle"). (`GVector.h` is not among the provided
sources.) -/
noncomputable def unitToward (θ : ℝ) : GPoint := ⟨Real.cos θ, Real.sin θ⟩

/-! ## Constants (from `GraphViewer.h` and `GraphViewer.cpp`) -/

/-- Source: `const double kNodeRadius = 0.035;` -/
noncomputable def kNodeRadius : ℝ := 0.035

/-- Source: `const double kAspectRatio = 5.0 / 3.0;` (renamed with a `Val` suffix). -/
noncomputable def kAspectRatioVal : ℝ := 5 / 3

/-- Source: `const double kLoopTransitionRadius = GraphEditor::kNodeRadius * 0.75;` -/
noncomputable def kLoopTransitionRadius : ℝ := kNodeRadius * 0.75

/-- Source: `const double kAvoidanceRotation = -M_PI / 6;` -/
noncomputable def kAvoidanceRotation : ℝ := -(Real.pi / 6)

/-- Source: `const int kLowAngle = -5;` -/
def kLowAngle : ℤ := -5

/-- Source: `const int kAngleStep = 10;` (`kHighAngle = 355`; the sampling loop
`for (degAngle = -5; degAngle < 355; degAngle += 10)` makes 36 iterations). -/
def kAngleStep : ℤ := 10

/-- Number of iterations of the angle-sampling loop in `bestThetaFor`. -/
def numAngleSamples : ℕ := 36

/-- The sampled candidate angles in degrees: `-5, 5, 15, ..., 345`. -/
def degAngles : List ℤ :=
  (List.range numAngleSamples).map (fun (k : ℕ) => kLowAngle + kAngleStep * (k : ℤ))

/-! ## Line/circle collision counting (`GraphViewer.cpp` 254-327) -/

/-- Source: `quadraticSolnsInRange`: given the quadratic `a t² + b t + c = 0`,
returns whether (as 0/1, the C++ converts the `bool` to `size_t`) there are
solutions corresponding to a line/circle intersection: solutions exist
UNLESS both are less than zero or both are greater than one. -/
noncomputable def quadraticSolnsInRange (a b c : ℝ) : ℕ :=
  let discriminant := b * b - 4 * a * c
  if discriminant < 0 then 0
  else
    let x1 := (-b + Real.sqrt discriminant) / (2 * a)
    let x2 := (-b - Real.sqrt discriminant) / (2 * a)
    if (x1 < 0 ∧ x2 < 0) ∨ (x1 > 1 ∧ x2 > 1) then 0 else 1

/-- Source: `collisionsBetween` (circle vs. lines overload): sums, over the given
segments, `quadraticSolnsInRange (dot d d) (2 dot d s) (dot s s − r²)` with
`d` the segment direction and `s` the segment-start-to-circle-center
vector. -/
noncomputable def collisionsBetweenLines (center : GPoint) (radius : ℝ)
    (lines : List (GPoint × GPoint)) : ℕ :=
  (lines.map (fun line =>
    let d := line.2 - line.1
    let s := line.1 - center
    quadraticSolnsInRange (dot d d) (2 * dot d s) (dot s s - radius * radius))).sum

/-- Source: `collisionsBetween` (circle vs. circles overload): the C++ body is
`/* TODO: Implement this function... */ return 0;` — a stub that always
returns zero. -/
def collisionsBetweenCircles (_center : GPoint) (_radius : ℝ)
    (_circles : List (GPoint × ℝ)) : ℕ := 0

/-- Source: `collisionsBetween` (combined overload): lines part plus circles part. -/
noncomputable def collisionsBetween (center : GPoint) (radius : ℝ)
    (lines : List (GPoint × GPoint)) (circles : List (GPoint × ℝ)) : ℕ :=
  collisionsBetweenLines center radius lines + collisionsBetweenCircles center radius circles

/-! ## Best self-loop angle search (`bestThetaFor`, `GraphViewer.cpp` 332-404) -/

/-- The "height map" of collision counts over the candidate angles. -/
noncomputable def collisionHeights (stateCenter : GPoint)
    (lines : List (GPoint × GPoint)) (circles : List (GPoint × ℝ)) : List ℕ :=
  degAngles.map (fun (degAngle : ℤ) =>
    collisionsBetween
      (stateCenter + unitToward ((degAngle : ℝ) * Real.pi / 180) * kNodeRadius)
      kLoopTransitionRadius lines circles)

/-- State of the forward scan for the longest run of minima:
`(bestStart, bestLength, currStart, currLength)`. -/
structure ScanState where
  bestStart : ℕ
  bestLength : ℕ
  currStart : ℕ
  currLength : ℕ

/-- One iteration of the forward scan over the collision array (the body of
the `for (size_t i = 0; ...)` loop in `bestThetaFor`). -/
def scanStep (m : ℕ) (i : ℕ) (x : ℕ) (st : ScanState) : ScanState :=
  if x ≠ m then
    if st.bestLength < st.currLength then
      ⟨st.currStart, st.currLength, i + 1, 0⟩
    else
      ⟨st.bestStart, st.bestLength, i + 1, 0⟩
  else
    ⟨st.bestStart, st.bestLength, st.currStart, st.currLength + 1⟩

/-- The forward scan over the collision array, from index `i` upward. -/
def fwdScan (m : ℕ) : List ℕ → ℕ → ScanState → ScanState
  | [], _, st => st
  | x :: rest, i, st => fwdScan m rest (i + 1) (scanStep m i x st)

/-- Source: `k` iterations of `currStart = (currStart + size - 1) % size` starting
from 0 (the backwards wraparound scan of `bestThetaFor`). -/
def backStart (n : ℕ) : ℕ → ℕ
  | 0 => 0
  | k + 1 => (backStart n k + (n - 1)) % n

/-- Source: `*min_element(collisions.begin(), collisions.end())` (the collision
array is always nonempty, so the `getD` default is never taken). -/
def minOf (cs : List ℕ) : ℕ := (cs.min?).getD 0

/-- The backwards wraparound scan of `bestThetaFor`: how many entries,
scanning from the end of the array, equal the minimum before the first
mismatch. -/
def backCount (cs : List ℕ) (m : ℕ) : ℕ := (cs.reverse.takeWhile (fun x => x == m)).length

/-- The run-of-minima search of `bestThetaFor`: returns
`(bestStart, bestLength)`. The backwards scan walks from the end of the
array while entries equal the minimum (handling wraparound via
`currStart = (currStart + size - 1) % size`); the forward scan then looks
for the longest run, and a final comparison handles a best run ending at
the end of the array. -/
def runSearch (cs : List ℕ) : ℕ × ℕ :=
  let st := fwdScan (minOf cs) cs 0
    ⟨0, 0, backStart cs.length (backCount cs (minOf cs)), backCount cs (minOf cs)⟩
  if st.bestLength < st.currLength then (st.currStart, st.currLength)
  else (st.bestStart, st.bestLength)

/-- Source: `bestThetaFor`: determines the best angle at which to orient a
self-loop. `bestStart + bestLength - 1` is computed in `size_t` arithmetic,
which wraps modulo `2^64` when `bestStart + bestLength = 0` (the source
itself warns about "bizarre integer overflows"); the products with
`kAngleStep` stay far below `2^64` because both scan quantities are bounded
by the 36-entry array. -/
noncomputable def bestThetaFor (stateCenter : GPoint)
    (lines : List (GPoint × GPoint)) (circles : List (GPoint × ℝ)) : ℝ :=
  let cs := collisionHeights stateCenter lines circles
  let p := runSearch cs
  let highIdx : ℕ := (p.1 + p.2 + (2 ^ 64 - 1)) % 2 ^ 64
  let lowTheta : ℝ := ((kLowAngle : ℝ) + ((p.1 * 10 : ℕ) : ℝ)) * Real.pi / 180
  let highTheta : ℝ := ((kLowAngle : ℝ) + (highIdx : ℝ) * 10) * Real.pi / 180
  (lowTheta + highTheta) / 2

/-- Source: `loopArrowPointFor`: the arrow contact point, via the law of cosines
(`theta = arccos(1 - r'^2 / 2r^2)`), rotating the state-center→loop-center
vector by that angle. -/
noncomputable def loopArrowPointFor (stateCenter loopCenter : GPoint) : GPoint :=
  let θ := Real.arccos (1 - kLoopTransitionRadius * kLoopTransitionRadius /
    (2 * kNodeRadius * kNodeRadius))
  stateCenter + rotate (loopCenter - stateCenter) θ

/-- Source: `worldBoundaries()`: the four world-boundary segments. -/
noncomputable def worldBoundaries : List (GPoint × GPoint) :=
  [ (⟨0, 0⟩, ⟨1, 0⟩),
    (⟨0, 1 / kAspectRatioVal⟩, ⟨1, 1 / kAspectRatioVal⟩),
    (⟨0, 0⟩, ⟨0, 1 / kAspectRatioVal⟩),
    (⟨1, 0⟩, ⟨1, 1 / kAspectRatioVal⟩) ]

/-! ## The registry state -/

/-- The route geometry stored in an edge's `style` field: either a
`LineEdge` (straight segment from `lineStart` to `lineEnd`) or a `LoopEdge`
(`center` of the loop circle and `arrowPt`). -/
inductive Route where
  | seg (lineStart lineEnd : GPoint)
  | loop (center arrowPt : GPoint)

/-- A node: recyclable integer `index`, `position` and `label`
(`Node::mIndex`, `Node::mPos`, `Node::mLabel`). -/
structure NodeData where
  index : ℕ
  pos : GPoint
  label : String

/-- Per-edge data: the label and the cached route geometry
(`Edge::mLabel` and `Edge::style`; `mFrom`/`mTo` are the registry keys). -/
structure EdgeData where
  label : String
  style : Option Route

/-- The registry state of a `Viewer`: the node set, the edge map
(from-id → (to-id → edge)), and the free-id pool. -/
structure State where
  nodes : List NodeData
  edges : List (ℕ × List (ℕ × EdgeData))
  freeNodeIDs : List ℕ

/-- A `Viewer` with no nodes and no edges. -/
def emptyState : State := ⟨[], [], []⟩

/-! ### Association-list primitives for the edge map -/

/-- First entry with the given key (`std::unordered_map` keys are unique, so
this is the map lookup). -/
def lookupKey {α : Type} (k : ℕ) : List (ℕ × α) → Option α
  | [] => none
  | (k', v) :: rest => if k' = k then some v else lookupKey k rest

/-- Source: `map[k] = v` on an association list: replace the entry if the key is
present, else append it. -/
def setKey {α : Type} (k : ℕ) (v : α) : List (ℕ × α) → List (ℕ × α)
  | [] => [(k, v)]
  | (k', v') :: rest => if k' = k then (k, v) :: rest else (k', v') :: setKey k v rest

/-- Source: `map.erase(k)`: drop the entry with the given key, if present. (Map
keys are unique, so on the association-list model this is the same as
dropping every entry with that key.) -/
def eraseKey {α : Type} (k : ℕ) (l : List (ℕ × α)) : List (ℕ × α) :=
  l.filter (fun p => p.1 ≠ k)

/-! ### Registry observers (`GraphViewer.cpp`) -/

/-- Source: `Viewer::numNodes()`. -/
def numNodes (s : State) : ℕ := s.nodes.length

/-- The first live node with the given id (node objects are identified by
their index; ids of live nodes are unique in API-reachable states). -/
def findNode (s : State) (i : ℕ) : Option NodeData := s.nodes.find? (fun n => n.index = i)

/-- Position of the node with the given id. The `⟨0,0⟩` default is a
modelling artifact: in the C++ the edge holds a live `Node*`, so under the
liveness invariant the lookup always succeeds. -/
def posOf (s : State) (i : ℕ) : GPoint :=
  match findNode s i with
  | some n => n.pos
  | none => ⟨0, 0⟩

/-- The `EdgeData` registered for the ordered pair `(f, t)`
(`Viewer::edgeBetween`). -/
def edgeDataAt (s : State) (f t : ℕ) : Option EdgeData :=
  match lookupKey f s.edges with
  | none => none
  | some bucket => lookupKey t bucket

/-- Source: `Viewer::hasEdge(from, to)`: `edges.count(from) && edges[from].count(to)`. -/
def hasEdge (s : State) (f t : ℕ) : Bool := (edgeDataAt s f t).isSome

/-- The label of the edge registered for `(f, t)`, if any. -/
def edgeLabelAt (s : State) (f t : ℕ) : Option String := (edgeDataAt s f t).map (·.label)

/-- The route geometry of the edge registered for `(f, t)`, if any. -/
def styleAt (s : State) (f t : ℕ) : Option (Option Route) := (edgeDataAt s f t).map (·.style)

/-- The label of the node with the given id, if live. -/
def nodeLabelAt (s : State) (i : ℕ) : Option String := (findNode s i).map (·.label)

/-! ### Route synthesis (`Viewer::calculateEdgeEndpoints`) -/

/-- The rendered endpoints of a non-self edge `f → t` (pass 1 of
`calculateEdgeEndpoints`): if the reverse edge exists, each center is
offset by `kNodeRadius` along its outgoing unit direction rotated by
`kAvoidanceRotation` (start) resp. `-kAvoidanceRotation` (end); otherwise
each center is translated straight to the border. -/
noncomputable def lineEndpointsFor (s : State) (f t : ℕ) : GPoint × GPoint :=
  let p0 := posOf s f
  let p1 := posOf s t
  if hasEdge s t f then
    (p0 + rotate (normalizationOf (p1 - p0)) kAvoidanceRotation * kNodeRadius,
     p1 + rotate (normalizationOf (p0 - p1)) (-kAvoidanceRotation) * kNodeRadius)
  else
    (p0 + normalizationOf (p1 - p0) * kNodeRadius,
     p1 + normalizationOf (p0 - p1) * kNodeRadius)

/-- The list of "occupied lines" accumulated by pass 1: the world
boundaries followed by every non-self edge's computed segment, in edge
iteration order. -/
noncomputable def occupiedLines (s : State) : List (GPoint × GPoint) :=
  worldBoundaries ++ s.edges.flatMap (fun fb =>
    fb.2.filterMap (fun te =>
      if fb.1 = te.1 then none else some (lineEndpointsFor s fb.1 te.1)))

/-- The "occupied circles" seed: every node's body. -/
noncomputable def nodeCircles (s : State) : List (GPoint × ℝ) :=
  s.nodes.map (fun n => (n.pos, kNodeRadius))

/-- The owning node ids of the self-edges, in edge iteration order. -/
def selfLoopIds (s : State) : List ℕ :=
  s.edges.flatMap (fun fb =>
    fb.2.filterMap (fun te => if fb.1 = te.1 then some fb.1 else none))

/-- Pass 2 of `calculateEdgeEndpoints`: place the self-loops in order,
adding each placed loop's circle (with radius `kNodeRadius`, as in the
source) to the occupied-circles list before placing the next one. Returns
the chosen `Route.loop` per owning node id. -/
noncomputable def pass2Go (s : State) (ls : List (GPoint × GPoint)) :
    List ℕ → List (GPoint × ℝ) → List (ℕ × Route)
  | [], _ => []
  | f :: rest, circles =>
      let pos := posOf s f
      let θ := bestThetaFor pos ls circles
      let center := pos + unitToward θ * kNodeRadius
      (f, Route.loop center (loopArrowPointFor pos center)) ::
        pass2Go s ls rest (circles ++ [(center, kNodeRadius)])

/-- The style recomputed for one registry entry `(f, t, e)`. Pass 1 styles
every non-self edge; pass 2 styles every self edge. (The C++ runs the two
passes sequentially over the whole map; since pass-1 styles are never read
back by pass 2 — pass 2 reads only node positions and the already-collected
`lines` — assigning both in one traversal yields the same final state.) -/
noncomputable def calcEntry (s : State) (loopStyles : List (ℕ × Route)) (f t : ℕ)
    (e : EdgeData) : EdgeData :=
  if f = t then
    match lookupKey f loopStyles with
    | some r => { e with style := some r }
    | none => e
  else
    { e with style := some (Route.seg (lineEndpointsFor s f t).1 (lineEndpointsFor s f t).2) }

/-- Source: `Viewer::calculateEdgeEndpoints()`: recompute every edge's route from
the current node positions and edge set. -/
noncomputable def calculateEdgeEndpoints (s : State) : State :=
  let loopStyles := pass2Go s (occupiedLines s) (selfLoopIds s) (nodeCircles s)
  { s with edges := s.edges.map (fun fb =>
      (fb.1, fb.2.map (fun te => (te.1, calcEntry s loopStyles fb.1 te.1 te.2)))) }

/-! ### Mutating operations (`GraphViewer.cpp`) -/

/-- Insert into the ascending free-id list (`std::set<int>::insert`:
ignores an id that is already present). -/
def insertFreeId (i : ℕ) : List ℕ → List ℕ
  | [] => [i]
  | h :: t => if i < h then i :: h :: t else if i = h then h :: t else h :: insertFreeId i t

/-- The id `Viewer::newNode` assigns: `numNodes()` unless the free pool is
nonempty, in which case the smallest free id (`*freeNodeIDs.begin()`). -/
def newNodeId (s : State) : ℕ :=
  match s.freeNodeIDs with
  | [] => numNodes s
  | h :: _ => h

/-- Source: `Viewer::newNode(pt)`: pick the id, erase it from the free pool, and
insert a node at `pt` with an empty label. The `Node` constructor triggers
`calculateEdgeEndpoints()` before the node is added to the set, so the
routes are recomputed against the registry without the new node. -/
noncomputable def newNode (s : State) (pt : GPoint) : State :=
  let c := calculateEdgeEndpoints s
  { nodes := ⟨newNodeId s, pt, ""⟩ :: c.nodes,
    edges := c.edges,
    freeNodeIDs := match s.freeNodeIDs with | [] => [] | _ :: t => t }

/-- Source: `Viewer::newEdge(from, to, label)` / `newEdgeNoAux`: unconditionally
construct a fresh edge and assign `edges[from][to] = edge`, then recompute
all routes. (The `Edge` constructor also triggers a recomputation before
the assignment; it only rewrites style caches from the same registry data,
so the final state is the one modelled here.) -/
noncomputable def newEdge (s : State) (f t : ℕ) (l : String) : State :=
  calculateEdgeEndpoints
    { s with edges := setKey f (setKey t ⟨l, none⟩ (match lookupKey f s.edges with
        | some b => b
        | none => [])) s.edges }

/-- Remove the first node object with the given id (`find_if` + `erase`). -/
def eraseFirstNode : List NodeData → ℕ → List NodeData
  | [], _ => []
  | n :: rest, i => if n.index = i then rest else n :: eraseFirstNode rest i

/-- Source: `Viewer::removeNode(node)`: if the node is not in the registry, return
(silently, with no change); otherwise erase it, drop its outgoing bucket
(`edges.erase(node)`), erase every inner entry keyed by it, free its id,
and recompute all routes. -/
noncomputable def removeNode (s : State) (i : ℕ) : State :=
  if s.nodes.any (fun n => n.index = i) then
    calculateEdgeEndpoints
      { nodes := eraseFirstNode s.nodes i,
        edges := (eraseKey i s.edges).map (fun fb => (fb.1, eraseKey i fb.2)),
        freeNodeIDs := insertFreeId i s.freeNodeIDs }
  else s

/-- Source: `Viewer::removeEdge(transition)`:
`edges[transition->from()].erase(transition->to()); calculateEdgeEndpoints();`
Note `operator[]` default-constructs an empty bucket when `from` has no
entry. -/
noncomputable def removeEdgePair (s : State) (f t : ℕ) : State :=
  calculateEdgeEndpoints
    { s with edges :=
        match lookupKey f s.edges with
        | some b => setKey f (eraseKey t b) s.edges
        | none => s.edges ++ [(f, [])] }

/-- The coordinate clamp of `Node::position(pt)`:
`if (x < kNodeRadius) x = kNodeRadius; if (x > hi) x = hi;`. -/
noncomputable def clampCoord (v lo hi : ℝ) : ℝ :=
  let v1 := if v < lo then lo else v
  if v1 > hi then hi else v1

/-- The point clamp of `Node::position(pt)`: x into
`[kNodeRadius, 1 - kNodeRadius]`, y into
`[kNodeRadius, 1/kAspectRatio - kNodeRadius]`. -/
noncomputable def clampPoint (p : GPoint) : GPoint :=
  ⟨clampCoord p.x kNodeRadius (1 - kNodeRadius),
   clampCoord p.y kNodeRadius (1 / kAspectRatioVal - kNodeRadius)⟩

/-- Source: `Node::position(pt)` (the setter): clamp, store, and recompute all
routes. (The C++ mutates the one node object the caller points at; live
ids are unique, so updating by id is the same operation.) -/
noncomputable def setPosition (s : State) (i : ℕ) (pt : GPoint) : State :=
  calculateEdgeEndpoints
    { s with nodes := s.nodes.map (fun n =>
        if n.index = i then { n with pos := clampPoint pt } else n) }

/-- Source: `Node::label(label)` (the setter): `mLabel = label;` — no route
recomputation is triggered. -/
def setNodeLabel (s : State) (i : ℕ) (l : String) : State :=
  { s with nodes := s.nodes.map (fun n =>
      if n.index = i then { n with label := l } else n) }

/-- Source: `Edge::label(label)` (the setter): `mLabel = label;` — no route
recomputation is triggered. (The C++ mutates the one edge object the
caller points at, i.e. the entry at `(f, t)` of the registry.) -/
def setEdgeLabel (s : State) (f t : ℕ) (l : String) : State :=
  { s with edges := s.edges.map (fun fb =>
      (fb.1, if fb.1 = f then
        fb.2.map (fun te => (te.1, if te.1 = t then { te.2 with label := l } else te.2))
      else fb.2)) }

/-! ### Derived notions used by the claims -/

/-- The claimed clamping region of a node position: x in
`[kNodeRadius, 1 - kNodeRadius]`, y in
`[kNodeRadius, 1/kAspectRatio - kNodeRadius]`. -/
def inBoundsPt (p : GPoint) : Prop :=
  kNodeRadius ≤ p.x ∧ p.x ≤ 1 - kNodeRadius ∧
  kNodeRadius ≤ p.y ∧ p.y ≤ 1 / kAspectRatioVal - kNodeRadius

/-- All (from-id, to-id) pairs with an entry in an edge map. -/
def edgeRefsList (es : List (ℕ × List (ℕ × EdgeData))) : List (ℕ × ℕ) :=
  es.flatMap (fun fb => fb.2.map (fun te => (fb.1, te.1)))

/-- All (from-id, to-id) pairs with an entry in the edge registry. -/
def edgeRefs (s : State) : List (ℕ × ℕ) := edgeRefsList s.edges

/-- Node id `i` has a live node in the given node list. -/
def RegisteredIn (ns : List NodeData) (i : ℕ) : Prop := ∃ n ∈ ns, n.index = i

/-- Node id `i` references a live registered node. -/
def Registered (s : State) (i : ℕ) : Prop := RegisteredIn s.nodes i

/-- The edge-liveness invariant: every edge in the registry has `from` and
`to` referencing live registered nodes. -/
def WF (s : State) : Prop := ∀ p ∈ edgeRefs s, Registered s p.1 ∧ Registered s p.2

/-- A registry holding exactly two nodes `0 ↦ pA`, `1 ↦ pB` and the
anti-parallel edge pair `0 → 1`, `1 → 0` (routes not yet computed). -/
def antiParallelPairState (pA pB : GPoint) : State :=
  ⟨[⟨0, pA, ""⟩, ⟨1, pB, ""⟩],
   [(0, [(1, ⟨"", none⟩)]), (1, [(0, ⟨"", none⟩)])],
   []⟩

/-- Midpoint of a segment given by its two endpoints. -/
noncomputable def segMidpoint (p q : GPoint) : GPoint := (p + q) * (1 / 2 : ℝ)

/-! ## Association-list and recomputation lemmas -/

theorem lookupKey_map_keyed {α β : Type} (g : ℕ × α → β) (l : List (ℕ × α)) (k : ℕ) :
    lookupKey k (l.map (fun p => (p.1, g p))) = (lookupKey k l).map (fun v => g (k, v)) := by
  induction l with
  | nil => rfl
  | cons p rest ih =>
      obtain ⟨k', v⟩ := p
      by_cases h : k' = k
      · subst h; simp [lookupKey]
      · simp [lookupKey, h, ih]

theorem lookupKey_setKey_self {α : Type} (k : ℕ) (v : α) (l : List (ℕ × α)) :
    lookupKey k (setKey k v l) = some v := by
  induction l with
  | nil => simp [setKey, lookupKey]
  | cons p rest ih =>
      obtain ⟨k', v'⟩ := p
      by_cases h : k' = k
      · simp [setKey, h, lookupKey]
      · simp [setKey, h, lookupKey, ih]

theorem lookupKey_append_of_none {α : Type} {k : ℕ} {l1 : List (ℕ × α)}
    (h : lookupKey k l1 = none) (l2 : List (ℕ × α)) :
    lookupKey k (l1 ++ l2) = lookupKey k l2 := by
  induction l1 with
  | nil => rfl
  | cons p rest ih =>
      obtain ⟨k', v⟩ := p
      by_cases hk : k' = k
      · simp [lookupKey, hk] at h
      · simp only [lookupKey, hk, if_false, List.cons_append, ite_false] at h ⊢
        exact ih h

theorem lookupKey_some_mem {α : Type} {k : ℕ} {v : α} :
    ∀ {l : List (ℕ × α)}, lookupKey k l = some v → (k, v) ∈ l := by
  intro l
  induction l with
  | nil => intro h; simp [lookupKey] at h
  | cons p rest ih =>
      obtain ⟨k', v'⟩ := p
      intro h
      by_cases hk : k' = k
      · subst hk
        simp [lookupKey] at h
        subst h
        exact List.mem_cons_self _ _
      · simp [lookupKey, hk] at h
        exact List.mem_cons_of_mem _ (ih h)

theorem mem_setKey {α : Type} {q : ℕ × α} {k : ℕ} {v : α} :
    ∀ {l : List (ℕ × α)}, q ∈ setKey k v l → q = (k, v) ∨ q ∈ l := by
  intro l
  induction l with
  | nil => intro h; simp [setKey] at h; exact Or.inl h
  | cons p rest ih =>
      obtain ⟨k', v'⟩ := p
      intro h
      by_cases hk : k' = k
      · simp [setKey, hk] at h
        rcases h with h | h
        · exact Or.inl h
        · exact Or.inr (List.mem_cons_of_mem _ h)
      · simp only [setKey, hk, ite_false, List.mem_cons] at h
        rcases h with h | h
        · exact Or.inr (by simp [h])
        · rcases ih h with h' | h'
          · exact Or.inl h'
          · exact Or.inr (List.mem_cons_of_mem _ h')

theorem mem_eraseKey {α : Type} {q : ℕ × α} {k : ℕ} {l : List (ℕ × α)}
    (h : q ∈ eraseKey k l) : q ∈ l ∧ q.1 ≠ k := by
  unfold eraseKey at h
  have := List.of_mem_filter h
  exact ⟨List.mem_of_mem_filter h, by simpa using this⟩

/-- Source: `calculateEdgeEndpoints` does not touch the node set. -/
theorem calculateEdgeEndpoints_nodes (s : State) :
    (calculateEdgeEndpoints s).nodes = s.nodes := rfl

/-- Source: `calculateEdgeEndpoints` does not touch the free-id pool. -/
theorem calculateEdgeEndpoints_freeNodeIDs (s : State) :
    (calculateEdgeEndpoints s).freeNodeIDs = s.freeNodeIDs := rfl

/-- Source: `edgeBetween` as an `Option.bind` of the two lookups. -/
theorem edgeDataAt_eq_bind (s : State) (f t : ℕ) :
    edgeDataAt s f t = (lookupKey f s.edges).bind (fun b => lookupKey t b) := by
  unfold edgeDataAt
  cases lookupKey f s.edges <;> rfl

/-- The edge map after recomputation, as a keyed map. -/
theorem calculateEdgeEndpoints_edges (s : State) :
    (calculateEdgeEndpoints s).edges = s.edges.map (fun fb => (fb.1,
      fb.2.map (fun te => (te.1,
        calcEntry s (pass2Go s (occupiedLines s) (selfLoopIds s) (nodeCircles s))
          fb.1 te.1 te.2)))) := rfl

/-- Recomputation rewrites exactly the style of each registered edge. -/
theorem edgeDataAt_calculateEdgeEndpoints (s : State) (f t : ℕ) :
    edgeDataAt (calculateEdgeEndpoints s) f t =
      (edgeDataAt s f t).map
        (calcEntry s (pass2Go s (occupiedLines s) (selfLoopIds s) (nodeCircles s)) f t) := by
  rw [edgeDataAt_eq_bind, edgeDataAt_eq_bind, calculateEdgeEndpoints_edges,
    lookupKey_map_keyed]
  cases hb : lookupKey f s.edges with
  | none => rfl
  | some b =>
      simp only [Option.map_some', Option.some_bind]
      rw [lookupKey_map_keyed]

/-- Recomputation never changes an edge's label. -/
theorem calcEntry_label (s : State) (ls : List (ℕ × Route)) (f t : ℕ) (e : EdgeData) :
    (calcEntry s ls f t e).label = e.label := by
  unfold calcEntry
  by_cases h : f = t
  · cases lookupKey f ls <;> simp [h]
  · simp [h]

theorem edgeLabelAt_calculateEdgeEndpoints (s : State) (f t : ℕ) :
    edgeLabelAt (calculateEdgeEndpoints s) f t = edgeLabelAt s f t := by
  unfold edgeLabelAt
  rw [edgeDataAt_calculateEdgeEndpoints]
  cases edgeDataAt s f t <;> simp [calcEntry_label]

theorem hasEdge_calculateEdgeEndpoints (s : State) (f t : ℕ) :
    hasEdge (calculateEdgeEndpoints s) f t = hasEdge s f t := by
  unfold hasEdge
  rw [edgeDataAt_calculateEdgeEndpoints]
  cases edgeDataAt s f t <;> rfl

theorem lookupKey_isSome_calculateEdgeEndpoints (s : State) (f : ℕ) :
    (lookupKey f (calculateEdgeEndpoints s).edges).isSome =
      (lookupKey f s.edges).isSome := by
  rw [calculateEdgeEndpoints_edges, lookupKey_map_keyed]
  cases lookupKey f s.edges <;> rfl

/-- Lookup of the label after `newEdge`: the registry maps `(f, t)` to the
freshly created edge with the supplied label. -/
theorem edgeLabelAt_newEdge (s : State) (f t : ℕ) (l : String) :
    edgeLabelAt (newEdge s f t l) f t = some l := by
  unfold newEdge
  rw [edgeLabelAt_calculateEdgeEndpoints]
  unfold edgeLabelAt
  rw [edgeDataAt_eq_bind]
  simp only [lookupKey_setKey_self, Option.some_bind]
  rfl

theorem hasEdge_newEdge (s : State) (f t : ℕ) (l : String) :
    hasEdge (newEdge s f t l) f t = true := by
  unfold newEdge
  rw [hasEdge_calculateEdgeEndpoints]
  unfold hasEdge
  rw [edgeDataAt_eq_bind]
  simp only [lookupKey_setKey_self, Option.some_bind]
  rfl

/-! ## Claim C6: the circle–circle collision counter is a stub returning 0 -/

/-- C6: for every candidate loop-circle center and radius and every list of
occupied circles, the circle–circle collision counter returns exactly 0;
consequently a candidate self-loop angle's collision count (and the whole
collision height map of the search) depends only on the occupied line
segments, never on node bodies or previously placed loop circles. -/
theorem circleCollisionCounterIsStub :
    ∀ (c : GPoint) (r : ℝ) (cs : List (GPoint × ℝ)),
      collisionsBetweenCircles c r cs = 0 ∧
      (∀ (ls : List (GPoint × GPoint)) (cs' : List (GPoint × ℝ)),
        collisionsBetween c r ls cs = collisionsBetween c r ls cs') ∧
      (∀ (ls : List (GPoint × GPoint)) (cs' : List (GPoint × ℝ)),
        collisionHeights c ls cs = collisionHeights c ls cs') := by
  intro c r cs
  refine ⟨rfl, fun ls cs' => ?_, fun ls cs' => ?_⟩
  · simp [collisionsBetween, collisionsBetweenCircles]
  · simp [collisionHeights, collisionsBetween, collisionsBetweenCircles]

/-! ## Claim C8: node-id assignment and reuse -/

/-- C8: starting from an empty registry, inserting 3 nodes yields ids
0, 1, 2 in order; after removing the node with id 1, the next insert yields
id 1 again; and the insert after that yields id 3. (Newly inserted nodes
are listed first, so the id sequences read newest-to-oldest.) -/
theorem nodeIdReuseScenario :
    (newNode emptyState ⟨0.1, 0.1⟩).nodes.map (·.index) = [0] ∧
    (newNode (newNode emptyState ⟨0.1, 0.1⟩) ⟨0.2, 0.2⟩).nodes.map (·.index) = [1, 0] ∧
    (newNode (newNode (newNode emptyState ⟨0.1, 0.1⟩) ⟨0.2, 0.2⟩)
      ⟨0.3, 0.3⟩).nodes.map (·.index) = [2, 1, 0] ∧
    (newNode (removeNode (newNode (newNode (newNode emptyState ⟨0.1, 0.1⟩)
      ⟨0.2, 0.2⟩) ⟨0.3, 0.3⟩) 1) ⟨0.4, 0.4⟩).nodes.map (·.index) = [1, 2, 0] ∧
    (newNode (newNode (removeNode (newNode (newNode (newNode emptyState ⟨0.1, 0.1⟩)
      ⟨0.2, 0.2⟩) ⟨0.3, 0.3⟩) 1) ⟨0.4, 0.4⟩) ⟨0.5, 0.5⟩).nodes.map (·.index)
      = [3, 1, 2, 0] := by
  refine ⟨rfl, rfl, rfl, ?_, ?_⟩ <;>
    simp [newNode, removeNode, emptyState, calculateEdgeEndpoints, selfLoopIds,
      eraseFirstNode, eraseKey, insertFreeId, newNodeId, numNodes]

/-! ## Claim C2: boundary clamping of node positions -/

theorem clampCoord_mem {v lo hi : ℝ} (h : lo ≤ hi) :
    lo ≤ clampCoord v lo hi ∧ clampCoord v lo hi ≤ hi := by
  simp only [clampCoord]
  split_ifs <;> constructor <;> linarith

theorem clampCoord_eq_self {v lo hi : ℝ} (h1 : lo ≤ v) (h2 : v ≤ hi) :
    clampCoord v lo hi = v := by
  simp only [clampCoord]
  split_ifs <;> linarith

/-- C2 counterexample: inserting a node does NOT clamp — `Viewer::newNode`
passes the raw point to the `Node` constructor, which stores it directly
(only the `Node::position` setter clamps). A node inserted at `(-1, -1)` is
stored at `(-1, -1)`, outside the claimed bounds. -/
theorem nodeInsertNoClampCounterexample :
    (newNode emptyState ⟨-1, -1⟩).nodes.map (·.pos) = [⟨-1, -1⟩] ∧
    ¬ inBoundsPt ⟨-1, -1⟩ := by
  refine ⟨rfl, fun h => ?_⟩
  have hx := h.1
  norm_num [kNodeRadius] at hx

/-- C2 (amended): the `Node::position` setter stores exactly the clamp of
`p` into `[r, 1-r] × [r, 1/aspect - r]`; the clamp always lies in those
bounds, and equals `p` whenever `p` is already inside them. Inserting a
node, by contrast, stores the raw point `p` unchanged. -/
theorem positionSetterClamps (s : State) (i : ℕ) (p : GPoint) :
    (∀ n ∈ (setPosition s i p).nodes, n.index = i → n.pos = clampPoint p) ∧
    inBoundsPt (clampPoint p) ∧
    (inBoundsPt p → clampPoint p = p) ∧
    (newNode s p).nodes.head? = some ⟨newNodeId s, p, ""⟩ := by
  have hx : kNodeRadius ≤ 1 - kNodeRadius := by norm_num [kNodeRadius]
  have hy : kNodeRadius ≤ 1 / kAspectRatioVal - kNodeRadius := by
    norm_num [kNodeRadius, kAspectRatioVal]
  refine ⟨?_, ?_, ?_, rfl⟩
  · intro n hn hni
    rw [setPosition, calculateEdgeEndpoints_nodes] at hn
    simp only [List.mem_map] at hn
    obtain ⟨m, _, rfl⟩ := hn
    by_cases hm : m.index = i
    · simp [hm]
    · simp [hm] at hni
  · exact ⟨(clampCoord_mem hx).1, (clampCoord_mem hx).2,
      (clampCoord_mem hy).1, (clampCoord_mem hy).2⟩
  · intro hp
    obtain ⟨h1, h2, h3, h4⟩ := hp
    simp only [clampPoint]
    rw [clampCoord_eq_self h1 h2, clampCoord_eq_self h3 h4]

/-- Witness for `positionSetterClamps` at a concrete input: the in-bounds
point `(1/2, 1/2)` is left unchanged by the clamp. -/
theorem positionSetterClampsWitness :
    inBoundsPt ⟨1 / 2, 1 / 2⟩ ∧ clampPoint ⟨1 / 2, 1 / 2⟩ = ⟨1 / 2, 1 / 2⟩ := by
  have hb : inBoundsPt ⟨1 / 2, 1 / 2⟩ := by
    refine ⟨?_, ?_, ?_, ?_⟩ <;> norm_num [kNodeRadius, kAspectRatioVal]
  exact ⟨hb, (positionSetterClamps emptyState 0 ⟨1 / 2, 1 / 2⟩).2.2.1 hb⟩

/-! ## Claim C1: re-inserting an existing edge -/

/-- C1 counterexample: with an edge `0 → 1` labelled `"x"` in the registry,
calling `newEdge 0 1` again (the editor calls it with the default empty
label) does NOT return the existing edge unchanged: the registry afterwards
maps `(0, 1)` to a fresh edge whose label is `""`, not `"x"` — the existing
edge and its label are discarded. -/
theorem edgeReinsertCounterexample :
    edgeLabelAt
        (newEdge (newNode (newNode emptyState ⟨0.25, 0.25⟩) ⟨0.75, 0.25⟩) 0 1 "x")
        0 1 = some "x" ∧
    edgeLabelAt
        (newEdge (newEdge (newNode (newNode emptyState ⟨0.25, 0.25⟩) ⟨0.75, 0.25⟩)
          0 1 "x") 0 1 "")
        0 1 = some "" ∧
    (some "" : Option String) ≠ some "x" :=
  ⟨edgeLabelAt_newEdge _ 0 1 "x", edgeLabelAt_newEdge _ 0 1 "", by simp⟩

/-- C1 (amended): `newEdge from to label` (i.e. `newEdgeNoAux`)
unconditionally constructs a fresh edge and assigns
`edges[from][to] = edge`; afterwards the registry maps `(from, to)` to the
new edge carrying the supplied label — when an edge for that ordered pair
already existed it is replaced, not returned. -/
theorem edgeInsertOverwrites :
    ∀ (s : State) (f t : ℕ) (l : String),
      edgeLabelAt (newEdge s f t l) f t = some l ∧
      hasEdge (newEdge s f t l) f t = true :=
  fun s f t l => ⟨edgeLabelAt_newEdge s f t l, hasEdge_newEdge s f t l⟩

/-! ## Claim C3: operations referencing nonexistent nodes -/

/-- C3 counterexample: `Viewer::removeEdge` with an edge whose `from`
endpoint is not in the registry is not rejected — it silently completes,
and `edges[from]` (`std::unordered_map::operator[]`) default-constructs an
empty adjacency bucket, so the registry state changes. -/
theorem invalidReferenceCounterexample :
    (removeEdgePair emptyState 0 1).edges = [(0, [])] ∧
    removeEdgePair emptyState 0 1 ≠ emptyState := by
  have h : (removeEdgePair emptyState 0 1).edges = [(0, [])] := rfl
  refine ⟨h, fun heq => ?_⟩
  have h2 := congrArg State.edges heq
  rw [h] at h2
  simp [emptyState] at h2

/-- C3 (amended): operations referencing a node id that is not in the
registry are not rejected and raise no error — the C++ has no failure path.
`removeNode` of an unregistered node silently returns with the registry
unchanged; `newEdge` silently registers the edge regardless of whether its
endpoints exist; `removeEdge` silently completes, leaving an (empty)
adjacency bucket for the `from` key. -/
theorem invalidReferenceSilent (s : State) (i : ℕ)
    (h : ∀ n ∈ s.nodes, n.index ≠ i) :
    removeNode s i = s ∧
    (∀ f t l, hasEdge (newEdge s f t l) f t = true) ∧
    (∀ f t, (lookupKey f (removeEdgePair s f t).edges).isSome = true) := by
  refine ⟨?_, fun f t l => hasEdge_newEdge s f t l, fun f t => ?_⟩
  · have hcond : ¬ (s.nodes.any (fun n => n.index = i) = true) := by
      intro hc
      rw [List.any_eq_true] at hc
      obtain ⟨n, hn, hdec⟩ := hc
      exact h n hn (by simpa using hdec)
    unfold removeNode
    rw [if_neg hcond]
  · rw [removeEdgePair, lookupKey_isSome_calculateEdgeEndpoints]
    cases hb : lookupKey f s.edges with
    | some b => simp [hb, lookupKey_setKey_self]
    | none =>
        simp only [hb]
        rw [lookupKey_append_of_none hb]
        simp [lookupKey]

/-- Witness for `invalidReferenceSilent`: removing the unregistered id 5
from the empty registry is a silent no-op. -/
theorem invalidReferenceSilentWitness :
    (∀ n ∈ emptyState.nodes, n.index ≠ 5) ∧ removeNode emptyState 5 = emptyState :=
  ⟨fun n hn => by simp [emptyState] at hn,
   (invalidReferenceSilent emptyState 5 (fun n hn => by simp [emptyState] at hn)).1⟩

/-! ## Claim C10: label mutation is frame-local -/

theorem map_proj_update {β : Type} (ns : List NodeData) (g : NodeData → NodeData)
    (proj : NodeData → β) (hpr : ∀ n, proj (g n) = proj n) :
    (ns.map g).map proj = ns.map proj := by
  induction ns with
  | nil => rfl
  | cons a l ih => simp [hpr, ih]

theorem find?_nodes_label_update (ns : List NodeData) (i j : ℕ) (l : String)
    (h : j ≠ i) :
    (ns.map (fun n => if n.index = i then { n with label := l } else n)).find?
        (fun n => n.index = j) =
      ns.find? (fun n => n.index = j) := by
  induction ns with
  | nil => rfl
  | cons n rest ih =>
      have hij : ¬ (i = j) := fun hh => h hh.symm
      by_cases hi : n.index = i
      · have hj : ¬ (n.index = j) := by rw [hi]; exact fun hh => h hh.symm
        simp [List.find?, hi, hj, hij, h, ih]
      · by_cases hj : n.index = j <;> simp [List.find?, hi, hj, hij, h, ih]

theorem nodeLabelAt_setNodeLabel_ne (s : State) (i : ℕ) (l : String) {j : ℕ}
    (h : j ≠ i) :
    nodeLabelAt (setNodeLabel s i l) j = nodeLabelAt s j := by
  have hN : (setNodeLabel s i l).nodes =
      s.nodes.map (fun n => if n.index = i then { n with label := l } else n) := rfl
  unfold nodeLabelAt findNode
  rw [hN, find?_nodes_label_update s.nodes i j l h]

theorem lookupKey_label_inner (b : List (ℕ × EdgeData)) (t : ℕ) (l : String)
    (t' : ℕ) :
    lookupKey t'
        (b.map (fun te => (te.1, if te.1 = t then { te.2 with label := l } else te.2))) =
      (lookupKey t' b).map (fun e => if t' = t then { e with label := l } else e) := by
  induction b with
  | nil => rfl
  | cons p rest ih =>
      obtain ⟨k, e⟩ := p
      by_cases hk : k = t'
      · subst hk; simp [lookupKey]
      · simp [lookupKey, hk, ih]

theorem edgeDataAt_setEdgeLabel (s : State) (f t : ℕ) (l : String) (f' t' : ℕ) :
    edgeDataAt (setEdgeLabel s f t l) f' t' =
      (edgeDataAt s f' t').map
        (fun e => if f' = f ∧ t' = t then { e with label := l } else e) := by
  have hE : (setEdgeLabel s f t l).edges = s.edges.map (fun fb => (fb.1,
      if fb.1 = f then
        fb.2.map (fun te => (te.1, if te.1 = t then { te.2 with label := l } else te.2))
      else fb.2)) := rfl
  rw [edgeDataAt_eq_bind, edgeDataAt_eq_bind, hE]
  generalize s.edges = es
  induction es with
  | nil => rfl
  | cons p rest ih =>
      obtain ⟨k, b⟩ := p
      by_cases hk : k = f'
      · subst hk
        by_cases hf : k = f
        · have hf' : (k = f) = True := by simp [hf]
          simp only [List.map_cons, lookupKey, if_pos rfl, hf', if_true,
            Option.some_bind, lookupKey_label_inner]
          cases hl : lookupKey t' b with
          | none => simp [hl]
          | some e =>
              by_cases ht : t' = t
              · simp [hl, ht, hf]
              · simp [hl, ht, hf]
        · have hf' : (k = f) = False := by simp [hf]
          simp only [List.map_cons, lookupKey, if_pos rfl, hf', if_false,
            Option.some_bind]
          cases hl : lookupKey t' b with
          | none => simp [hl]
          | some e => simp [hl, hf]
      · simp only [List.map_cons, lookupKey, if_neg hk]
        exact ih

/-- C10: setting a node's label or an edge's label modifies only that
label: node ids, node positions, other node labels, the free-id pool, the
whole edge registry (for node labels), edge route geometry and other edge
labels (for edge labels) are all unchanged, and no route recomputation is
triggered (the stored styles are exactly the old ones). -/
theorem labelMutationFrame (s : State) (i : ℕ) (ln : String) (f t : ℕ)
    (le : String) :
    ((setNodeLabel s i ln).nodes.map (·.index) = s.nodes.map (·.index)) ∧
    ((setNodeLabel s i ln).nodes.map (·.pos) = s.nodes.map (·.pos)) ∧
    ((setNodeLabel s i ln).freeNodeIDs = s.freeNodeIDs) ∧
    ((setNodeLabel s i ln).edges = s.edges) ∧
    (∀ j, j ≠ i → nodeLabelAt (setNodeLabel s i ln) j = nodeLabelAt s j) ∧
    ((setEdgeLabel s f t le).nodes = s.nodes) ∧
    ((setEdgeLabel s f t le).freeNodeIDs = s.freeNodeIDs) ∧
    (∀ f' t', styleAt (setEdgeLabel s f t le) f' t' = styleAt s f' t') ∧
    (∀ f' t', ¬ (f' = f ∧ t' = t) →
      edgeLabelAt (setEdgeLabel s f t le) f' t' = edgeLabelAt s f' t') := by
  have hg : ∀ n : NodeData,
      ((fun n => if n.index = i then { n with label := ln } else n) n).index = n.index := by
    intro n; by_cases hn : n.index = i <;> simp [hn]
  have hg2 : ∀ n : NodeData,
      ((fun n => if n.index = i then { n with label := ln } else n) n).pos = n.pos := by
    intro n; by_cases hn : n.index = i <;> simp [hn]
  refine ⟨map_proj_update s.nodes _ _ hg, map_proj_update s.nodes _ _ hg2, rfl, rfl,
    fun j hj => nodeLabelAt_setNodeLabel_ne s i ln hj, rfl, rfl, ?_, ?_⟩
  · intro f' t'
    unfold styleAt
    rw [edgeDataAt_setEdgeLabel]
    cases edgeDataAt s f' t' with
    | none => rfl
    | some e => by_cases hft : f' = f ∧ t' = t <;> simp [hft]
  · intro f' t' hft
    unfold edgeLabelAt
    rw [edgeDataAt_setEdgeLabel]
    cases edgeDataAt s f' t' with
    | none => rfl
    | some e => simp [hft]

/-- Witness for `labelMutationFrame` at a concrete input: the label of node
1 is unaffected by setting the label of node 0. -/
theorem labelMutationFrameWitness :
    ((1 : ℕ) ≠ 0) ∧
    nodeLabelAt (setNodeLabel emptyState 0 "a") 1 = nodeLabelAt emptyState 1 :=
  ⟨by decide, (labelMutationFrame emptyState 0 "a" 0 0 "b").2.2.2.2.1 1 (by decide)⟩

/-! ## Claim C7: edges always reference live nodes -/

theorem edgeRefsList_calculateEdgeEndpoints (s : State) :
    edgeRefsList (calculateEdgeEndpoints s).edges = edgeRefsList s.edges := by
  rw [calculateEdgeEndpoints_edges]
  unfold edgeRefsList
  generalize s.edges = es
  induction es with
  | nil => rfl
  | cons p rest ih =>
      simp only [List.map_cons, List.flatMap_cons, ih]
      congr 1
      simp [List.map_map, Function.comp]

theorem RegisteredIn_map_index {ns : List NodeData} {g : NodeData → NodeData}
    (hg : ∀ n, (g n).index = n.index) {j : ℕ} :
    RegisteredIn (ns.map g) j ↔ RegisteredIn ns j := by
  unfold RegisteredIn
  constructor
  · rintro ⟨n, hn, hidx⟩
    rw [List.mem_map] at hn
    obtain ⟨m, hm, rfl⟩ := hn
    exact ⟨m, hm, by rw [← hg m]; exact hidx⟩
  · rintro ⟨n, hn, hidx⟩
    exact ⟨g n, List.mem_map_of_mem g hn, by rw [hg n]; exact hidx⟩

theorem mem_eraseFirstNode_of_ne {ns : List NodeData} {n : NodeData} {i : ℕ}
    (hn : n ∈ ns) (hne : n.index ≠ i) : n ∈ eraseFirstNode ns i := by
  induction ns with
  | nil => simp at hn
  | cons m rest ih =>
      rcases List.mem_cons.1 hn with rfl | hmem
      · simp only [eraseFirstNode, if_neg hne]
        exact List.mem_cons_self _ _
      · by_cases hm : m.index = i
        · simp only [eraseFirstNode, if_pos hm]; exact hmem
        · simp only [eraseFirstNode, if_neg hm]
          exact List.mem_cons_of_mem _ (ih hmem)

theorem WF_newNode (s : State) (h : WF s) (pt : GPoint) : WF (newNode s pt) := by
  intro p hp
  have hE : edgeRefs (newNode s pt) = edgeRefsList s.edges := by
    unfold edgeRefs
    have h1 : (newNode s pt).edges = (calculateEdgeEndpoints s).edges := rfl
    rw [h1, edgeRefsList_calculateEdgeEndpoints]
  rw [hE] at hp
  have h2 := h p hp
  refine ⟨?_, ?_⟩
  · obtain ⟨n, hn, hidx⟩ := h2.1
    exact ⟨n, List.mem_cons_of_mem _ hn, hidx⟩
  · obtain ⟨n, hn, hidx⟩ := h2.2
    exact ⟨n, List.mem_cons_of_mem _ hn, hidx⟩

theorem WF_setPosition (s : State) (h : WF s) (i : ℕ) (pt : GPoint) :
    WF (setPosition s i pt) := by
  intro p hp
  have hE : edgeRefs (setPosition s i pt) = edgeRefsList s.edges := by
    unfold edgeRefs
    have h1 : (setPosition s i pt).edges = (calculateEdgeEndpoints
        { s with nodes := s.nodes.map (fun n =>
            if n.index = i then { n with pos := clampPoint pt } else n) }).edges := rfl
    rw [h1, edgeRefsList_calculateEdgeEndpoints]
  rw [hE] at hp
  have h2 := h p hp
  have hg : ∀ n : NodeData,
      ((fun n => if n.index = i then { n with pos := clampPoint pt } else n) n).index
        = n.index := by
    intro n; by_cases hn : n.index = i <;> simp [hn]
  exact ⟨(RegisteredIn_map_index hg).2 h2.1, (RegisteredIn_map_index hg).2 h2.2⟩

theorem edgeRefs_newEdge_sub {s : State} {f t : ℕ} {l : String} {p : ℕ × ℕ}
    (hp : p ∈ edgeRefs (newEdge s f t l)) : p = (f, t) ∨ p ∈ edgeRefs s := by
  unfold edgeRefs at hp ⊢
  have hE : (newEdge s f t l).edges = (calculateEdgeEndpoints
      { s with edges := setKey f (setKey t ⟨l, none⟩ (match lookupKey f s.edges with
          | some b => b
          | none => [])) s.edges }).edges := rfl
  rw [hE, edgeRefsList_calculateEdgeEndpoints] at hp
  simp only [edgeRefsList, List.mem_flatMap, List.mem_map] at hp
  obtain ⟨fb, hfb, te, hte, hpe⟩ := hp
  rcases mem_setKey hfb with heq | hfb'
  · subst heq
    rcases mem_setKey hte with heq2 | hte'
    · left; rw [← hpe, heq2]
    · right
      cases hb : lookupKey f s.edges with
      | none => simp [hb] at hte'
      | some b =>
          simp only [hb] at hte'
          simp only [edgeRefsList, List.mem_flatMap, List.mem_map]
          exact ⟨(f, b), lookupKey_some_mem hb, te, hte', hpe⟩
  · right
    simp only [edgeRefsList, List.mem_flatMap, List.mem_map]
    exact ⟨fb, hfb', te, hte, hpe⟩

theorem WF_newEdge (s : State) (h : WF s) (f t : ℕ) (l : String)
    (hf : Registered s f) (ht : Registered s t) : WF (newEdge s f t l) := by
  intro p hp
  rcases edgeRefs_newEdge_sub hp with rfl | hp'
  · exact ⟨hf, ht⟩
  · exact h p hp'

theorem edgeRefs_removeEdgePair_sub {s : State} {f t : ℕ} {p : ℕ × ℕ}
    (hp : p ∈ edgeRefs (removeEdgePair s f t)) : p ∈ edgeRefs s := by
  unfold edgeRefs at hp ⊢
  have hE : (removeEdgePair s f t).edges = (calculateEdgeEndpoints
      { s with edges :=
          match lookupKey f s.edges with
          | some b => setKey f (eraseKey t b) s.edges
          | none => s.edges ++ [(f, [])] }).edges := rfl
  rw [hE, edgeRefsList_calculateEdgeEndpoints] at hp
  cases hb : lookupKey f s.edges with
  | some b =>
      simp only [hb] at hp
      simp only [edgeRefsList, List.mem_flatMap, List.mem_map] at hp ⊢
      obtain ⟨fb, hfb, te, hte, hpe⟩ := hp
      rcases mem_setKey hfb with heq | hfb'
      · subst heq
        have h2 := mem_eraseKey hte
        exact ⟨(f, b), lookupKey_some_mem hb, te, h2.1, hpe⟩
      · exact ⟨fb, hfb', te, hte, hpe⟩
  | none =>
      simp only [hb] at hp
      simp only [edgeRefsList, List.mem_flatMap, List.mem_map, List.mem_append] at hp ⊢
      obtain ⟨fb, hfb, te, hte, hpe⟩ := hp
      rcases hfb with hfb' | hfb'
      · exact ⟨fb, hfb', te, hte, hpe⟩
      · simp at hfb'
        rw [hfb'] at hte
        simp at hte

theorem WF_removeEdgePair (s : State) (h : WF s) (f t : ℕ) :
    WF (removeEdgePair s f t) := by
  intro p hp
  exact h p (edgeRefs_removeEdgePair_sub hp)

theorem removeNode_eq_of_not_found {s : State} {i : ℕ}
    (hnf : ¬ (s.nodes.any (fun n => n.index = i) = true)) : removeNode s i = s := by
  unfold removeNode
  rw [if_neg hnf]

theorem removeNode_eq_of_found {s : State} {i : ℕ}
    (hfound : s.nodes.any (fun n => n.index = i) = true) :
    removeNode s i = calculateEdgeEndpoints
      { nodes := eraseFirstNode s.nodes i,
        edges := (eraseKey i s.edges).map (fun fb => (fb.1, eraseKey i fb.2)),
        freeNodeIDs := insertFreeId i s.freeNodeIDs } := by
  unfold removeNode
  rw [if_pos hfound]

theorem mem_edgeRefsList_eraseNode {es : List (ℕ × List (ℕ × EdgeData))} {i : ℕ}
    {p : ℕ × ℕ}
    (hp : p ∈ edgeRefsList ((eraseKey i es).map (fun fb => (fb.1, eraseKey i fb.2)))) :
    p ∈ edgeRefsList es ∧ p.1 ≠ i ∧ p.2 ≠ i := by
  simp only [edgeRefsList, List.mem_flatMap, List.mem_map] at hp ⊢
  obtain ⟨fb', hfb', te, hte, hpe⟩ := hp
  obtain ⟨fb, hfb, heq⟩ := hfb'
  subst heq
  have h1 := mem_eraseKey hfb
  have h2 := mem_eraseKey hte
  refine ⟨⟨fb, h1.1, te, h2.1, hpe⟩, ?_, ?_⟩
  · rw [← hpe]; exact h1.2
  · rw [← hpe]; exact h2.2

theorem WF_removeNode (s : State) (h : WF s) (i : ℕ) :
    WF (removeNode s i) ∧ ∀ p ∈ edgeRefs (removeNode s i), p.1 ≠ i ∧ p.2 ≠ i := by
  by_cases hfound : s.nodes.any (fun n => n.index = i) = true
  · rw [removeNode_eq_of_found hfound]
    have hmem : ∀ p ∈ edgeRefs (calculateEdgeEndpoints
        { nodes := eraseFirstNode s.nodes i,
          edges := (eraseKey i s.edges).map (fun fb => (fb.1, eraseKey i fb.2)),
          freeNodeIDs := insertFreeId i s.freeNodeIDs }),
        p ∈ edgeRefsList s.edges ∧ p.1 ≠ i ∧ p.2 ≠ i := by
      intro p hp
      unfold edgeRefs at hp
      rw [edgeRefsList_calculateEdgeEndpoints] at hp
      exact mem_edgeRefsList_eraseNode hp
    refine ⟨?_, fun p hp => ((hmem p hp).2)⟩
    intro p hp
    obtain ⟨hps, hp1, hp2⟩ := hmem p hp
    have h2 := h p hps
    refine ⟨?_, ?_⟩
    · obtain ⟨n, hn, hidx⟩ := h2.1
      exact ⟨n, mem_eraseFirstNode_of_ne hn (by rw [hidx]; exact hp1), hidx⟩
    · obtain ⟨n, hn, hidx⟩ := h2.2
      exact ⟨n, mem_eraseFirstNode_of_ne hn (by rw [hidx]; exact hp2), hidx⟩
  · rw [removeNode_eq_of_not_found hfound]
    refine ⟨h, fun p hp => ?_⟩
    have h2 := h p hp
    constructor
    · intro hp1
      obtain ⟨n, hn, hidx⟩ := h2.1
      exact hfound (List.any_eq_true.2 ⟨n, hn, by simp [hidx, hp1]⟩)
    · intro hp2
      obtain ⟨n, hn, hidx⟩ := h2.2
      exact hfound (List.any_eq_true.2 ⟨n, hn, by simp [hidx, hp2]⟩)

/-- C7: starting from a state satisfying the edge-liveness invariant
(every registered edge's `from` and `to` reference live nodes), every
mutating registry operation preserves it — `newEdge` when called, as in the
C++, with nodes taken from the registry. Moreover `removeNode` removes
every edge whose `from` or `to` equals the removed node, so after it no
registry entry — and hence no recomputed route, routes being attached
exactly to registry entries — references the removed node. -/
theorem registryEdgeLiveness (s : State) (h : WF s) :
    (∀ pt, WF (newNode s pt)) ∧
    (∀ i pt, WF (setPosition s i pt)) ∧
    (∀ f t l, Registered s f → Registered s t → WF (newEdge s f t l)) ∧
    (∀ f t, WF (removeEdgePair s f t)) ∧
    (∀ i, WF (removeNode s i) ∧
      ∀ p ∈ edgeRefs (removeNode s i), p.1 ≠ i ∧ p.2 ≠ i) :=
  ⟨fun pt => WF_newNode s h pt,
   fun i pt => WF_setPosition s h i pt,
   fun f t l hf ht => WF_newEdge s h f t l hf ht,
   fun f t => WF_removeEdgePair s h f t,
   fun i => WF_removeNode s h i⟩

/-- Witness for `registryEdgeLiveness`: the empty registry satisfies the
invariant, and inserting a node preserves it. -/
theorem registryEdgeLivenessWitness :
    WF emptyState ∧ WF (newNode emptyState ⟨0.5, 0.5⟩) :=
  ⟨fun p hp => by simp [edgeRefs, edgeRefsList, emptyState] at hp,
   (registryEdgeLiveness emptyState
      (fun p hp => by simp [edgeRefs, edgeRefsList, emptyState] at hp)).1 ⟨0.5, 0.5⟩⟩

/-! ## Claim C5: the line/circle intersection test -/

theorem quadraticSolnsInRange_eq_one_iff (a b c : ℝ) (ha : 0 < a) :
    quadraticSolnsInRange a b c = 1 ↔
      ((∃ u : ℝ, a * (u * u) + b * u + c = 0) ∧
       ¬ (∀ u : ℝ, a * (u * u) + b * u + c = 0 → u < 0) ∧
       ¬ (∀ u : ℝ, a * (u * u) + b * u + c = 0 → u > 1)) := by
  simp only [quadraticSolnsInRange]
  by_cases hd : b * b - 4 * a * c < 0
  · rw [if_pos hd]
    have hnoroot : ∀ u : ℝ, a * (u * u) + b * u + c ≠ 0 := by
      apply quadratic_ne_zero_of_discrim_ne_sq
      intro z
      rw [discrim]
      intro hcontra
      nlinarith [mul_self_nonneg z]
    constructor
    · intro h01; exact absurd h01 (by norm_num)
    · rintro ⟨⟨u, hu⟩, -, -⟩
      exact absurd hu (hnoroot u)
  · push_neg at hd
    have hsq : discrim a b c = Real.sqrt (b * b - 4 * a * c) * Real.sqrt (b * b - 4 * a * c) := by
      rw [discrim, Real.mul_self_sqrt hd]
      ring
    have hroots := fun x => quadratic_eq_zero_iff (ne_of_gt ha) hsq x
    rw [if_neg (not_lt.2 hd)]
    set x1 := (-b + Real.sqrt (b * b - 4 * a * c)) / (2 * a) with hx1
    set x2 := (-b - Real.sqrt (b * b - 4 * a * c)) / (2 * a) with hx2
    have hr1 : a * (x1 * x1) + b * x1 + c = 0 := (hroots x1).2 (Or.inl rfl)
    have hr2 : a * (x2 * x2) + b * x2 + c = 0 := (hroots x2).2 (Or.inr rfl)
    by_cases hcase : (x1 < 0 ∧ x2 < 0) ∨ (x1 > 1 ∧ x2 > 1)
    · rw [if_pos hcase]
      constructor
      · intro h01; exact absurd h01 (by norm_num)
      · rintro ⟨-, hn0, hn1⟩
        rcases hcase with ⟨h1, h2⟩ | ⟨h1, h2⟩
        · refine absurd (fun u hu => ?_) hn0
          rcases (hroots u).1 hu with rfl | rfl
          · exact h1
          · exact h2
        · refine absurd (fun u hu => ?_) hn1
          rcases (hroots u).1 hu with rfl | rfl
          · exact h1
          · exact h2
    · rw [if_neg hcase]
      push_neg at hcase
      refine ⟨fun _ => ⟨⟨x1, hr1⟩, ?_, ?_⟩, fun _ => rfl⟩
      · intro hall
        rcases hcase.1 (hall x1 hr1) with h2
        exact absurd (hall x2 hr2) (by simpa using h2)
      · intro hall
        rcases hcase.2 (hall x1 hr1) with h2
        exact absurd (hall x2 hr2) (by simpa using h2)

/-- The dot product of a nonzero vector with itself is positive. -/
theorem dot_self_pos {v : GPoint} (hv : v ≠ ⟨0, 0⟩) : 0 < dot v v := by
  have h : v.x ≠ 0 ∨ v.y ≠ 0 := by
    by_contra hc
    push_neg at hc
    apply hv
    obtain ⟨vx, vy⟩ := v
    simp only at hc
    simp [hc.1, hc.2]
  unfold dot
  rcases h with h | h
  · nlinarith [mul_self_nonneg v.y, mul_self_pos.2 h]
  · nlinarith [mul_self_nonneg v.x, mul_self_pos.2 h]

/-- C5: for a line segment from `p0` to `p1` (with direction
`d = p1 - p0 ≠ 0`) and a circle of center `center` and radius `r`
(start-to-center vector `s = p0 - center`), the collision counter counts
the segment as intersecting the circle iff the quadratic
`dot(d,d) t² + 2 dot(d,s) t + (dot(s,s) − r²) = 0` has a real root, and not
every root is < 0, and not every root is > 1 ("both roots" less than 0 /
greater than 1 being exactly "all roots", the root set being nonempty). -/
theorem lineCircleCollisionCharacterization (p0 p1 center : GPoint) (r : ℝ)
    (hne : p1 ≠ p0) :
    collisionsBetweenLines center r [(p0, p1)] = 1 ↔
      ((∃ u : ℝ, dot (p1 - p0) (p1 - p0) * (u * u)
          + 2 * dot (p1 - p0) (p0 - center) * u
          + (dot (p0 - center) (p0 - center) - r * r) = 0) ∧
       ¬ (∀ u : ℝ, dot (p1 - p0) (p1 - p0) * (u * u)
          + 2 * dot (p1 - p0) (p0 - center) * u
          + (dot (p0 - center) (p0 - center) - r * r) = 0 → u < 0) ∧
       ¬ (∀ u : ℝ, dot (p1 - p0) (p1 - p0) * (u * u)
          + 2 * dot (p1 - p0) (p0 - center) * u
          + (dot (p0 - center) (p0 - center) - r * r) = 0 → u > 1)) := by
  have hstep : collisionsBetweenLines center r [(p0, p1)] =
      quadraticSolnsInRange (dot (p1 - p0) (p1 - p0))
        (2 * dot (p1 - p0) (p0 - center))
        (dot (p0 - center) (p0 - center) - r * r) := by
    simp [collisionsBetweenLines]
  have hd0 : p1 - p0 ≠ (⟨0, 0⟩ : GPoint) := by
    intro h
    apply hne
    obtain ⟨ax, ay⟩ := p1
    obtain ⟨bx, by'⟩ := p0
    simp only [GPoint.sub_def, GPoint.mk.injEq] at h
    simp only [GPoint.mk.injEq]
    constructor <;> linarith [h.1, h.2]
  rw [hstep]
  exact quadraticSolnsInRange_eq_one_iff _ _ _ (dot_self_pos hd0)

/-- Witness for `lineCircleCollisionCharacterization` at a concrete input:
the unit segment from the origin against the unit circle centered at the
origin. -/
theorem lineCircleCollisionWitness :
    ((⟨1, 0⟩ : GPoint) ≠ ⟨0, 0⟩) ∧
    (collisionsBetweenLines ⟨0, 0⟩ 1 [(⟨0, 0⟩, ⟨1, 0⟩)] = 1 ↔
      ((∃ u : ℝ, dot ((⟨1,0⟩ : GPoint) - ⟨0,0⟩) ((⟨1,0⟩ : GPoint) - ⟨0,0⟩) * (u * u)
          + 2 * dot ((⟨1,0⟩ : GPoint) - ⟨0,0⟩) ((⟨0,0⟩ : GPoint) - ⟨0,0⟩) * u
          + (dot ((⟨0,0⟩ : GPoint) - ⟨0,0⟩) ((⟨0,0⟩ : GPoint) - ⟨0,0⟩) - 1 * 1) = 0) ∧
       ¬ (∀ u : ℝ, dot ((⟨1,0⟩ : GPoint) - ⟨0,0⟩) ((⟨1,0⟩ : GPoint) - ⟨0,0⟩) * (u * u)
          + 2 * dot ((⟨1,0⟩ : GPoint) - ⟨0,0⟩) ((⟨0,0⟩ : GPoint) - ⟨0,0⟩) * u
          + (dot ((⟨0,0⟩ : GPoint) - ⟨0,0⟩) ((⟨0,0⟩ : GPoint) - ⟨0,0⟩) - 1 * 1) = 0 → u < 0) ∧
       ¬ (∀ u : ℝ, dot ((⟨1,0⟩ : GPoint) - ⟨0,0⟩) ((⟨1,0⟩ : GPoint) - ⟨0,0⟩) * (u * u)
          + 2 * dot ((⟨1,0⟩ : GPoint) - ⟨0,0⟩) ((⟨0,0⟩ : GPoint) - ⟨0,0⟩) * u
          + (dot ((⟨0,0⟩ : GPoint) - ⟨0,0⟩) ((⟨0,0⟩ : GPoint) - ⟨0,0⟩) - 1 * 1) = 0 → u > 1))) :=
  ⟨fun h => one_ne_zero (congrArg GPoint.x h),
   lineCircleCollisionCharacterization ⟨0, 0⟩ ⟨1, 0⟩ ⟨0, 0⟩ 1
     (fun h => one_ne_zero (congrArg GPoint.x h))⟩

/-! ## Claim C4: anti-parallel edge pairs -/

theorem magnitudeOf_pos {v : GPoint} (hv : v ≠ ⟨0, 0⟩) : 0 < magnitudeOf v := by
  have hd := dot_self_pos hv
  unfold dot at hd
  unfold magnitudeOf
  apply Real.sqrt_pos.2
  nlinarith

theorem sub_ne_zeroPt {p q : GPoint} (h : q ≠ p) : q - p ≠ (⟨0, 0⟩ : GPoint) := by
  intro hc
  apply h
  obtain ⟨ax, ay⟩ := q
  obtain ⟨bx, by'⟩ := p
  simp only [GPoint.sub_def, GPoint.mk.injEq] at hc
  simp only [GPoint.mk.injEq]
  constructor <;> linarith [hc.1, hc.2]

theorem magnitudeOf_rev (p q : GPoint) : magnitudeOf (p - q) = magnitudeOf (q - p) := by
  unfold magnitudeOf
  congr 1
  simp only [GPoint.sub_def]
  ring

/-- C4 counterexample: the claim offsets *each* endpoint along its
center-to-center unit direction rotated by the avoidance angle
(`kAvoidanceRotation = -30°`). The code rotates the start endpoint's
direction by `kAvoidanceRotation` but the end endpoint's direction by
`-kAvoidanceRotation` (+30°), so for nodes at `(0,0)` and `(1,0)` the
computed segment differs from the claimed one. -/
theorem antiParallelClaimCounterexample :
    styleAt (calculateEdgeEndpoints (antiParallelPairState ⟨0, 0⟩ ⟨1, 0⟩)) 0 1 ≠
      some (some (Route.seg
        ((⟨0, 0⟩ : GPoint) +
          rotate (normalizationOf ((⟨1, 0⟩ : GPoint) - ⟨0, 0⟩)) kAvoidanceRotation
            * kNodeRadius)
        ((⟨1, 0⟩ : GPoint) +
          rotate (normalizationOf ((⟨0, 0⟩ : GPoint) - ⟨1, 0⟩)) kAvoidanceRotation
            * kNodeRadius))) := by
  intro h
  have hstyle : styleAt (calculateEdgeEndpoints (antiParallelPairState ⟨0, 0⟩ ⟨1, 0⟩)) 0 1 =
      some (some (Route.seg
        ((⟨0, 0⟩ : GPoint) +
          rotate (normalizationOf ((⟨1, 0⟩ : GPoint) - ⟨0, 0⟩)) kAvoidanceRotation
            * kNodeRadius)
        ((⟨1, 0⟩ : GPoint) +
          rotate (normalizationOf ((⟨0, 0⟩ : GPoint) - ⟨1, 0⟩)) (-kAvoidanceRotation)
            * kNodeRadius))) := rfl
  rw [hstyle] at h
  simp only [Option.some.injEq, Route.seg.injEq] at h
  have hy := congrArg GPoint.y h.2
  have hnorm : normalizationOf ((⟨0, 0⟩ : GPoint) - ⟨1, 0⟩) = ⟨-1, 0⟩ := by
    unfold normalizationOf magnitudeOf
    norm_num
  rw [hnorm] at hy
  simp only [rotate, GPoint.add_def, GPoint.smul_def, Real.sin_neg, Real.cos_neg] at hy
  have hs : Real.sin kAvoidanceRotation = -(1 / 2) := by
    rw [kAvoidanceRotation, Real.sin_neg, Real.sin_pi_div_six]
  rw [hs] at hy
  norm_num [kNodeRadius] at hy

/-- C4 (amended): for two distinct nodes with both edges `0 → 1` and
`1 → 0` present, route recomputation assigns each edge a Segment whose
start endpoint is its from-center offset by `kNodeRadius` along the
from→to unit direction rotated by the avoidance angle
(`kAvoidanceRotation`, −30°), and whose end endpoint is its to-center
offset by `kNodeRadius` along the to→from unit direction rotated by the
*negated* avoidance angle (+30°); and the two resulting segments do not
coincide: their midpoints differ. -/
theorem antiParallelSeparation (pA pB : GPoint) (hne : pA ≠ pB) :
    styleAt (calculateEdgeEndpoints (antiParallelPairState pA pB)) 0 1 =
      some (some (Route.seg
        (pA + rotate (normalizationOf (pB - pA)) kAvoidanceRotation * kNodeRadius)
        (pB + rotate (normalizationOf (pA - pB)) (-kAvoidanceRotation) * kNodeRadius))) ∧
    styleAt (calculateEdgeEndpoints (antiParallelPairState pA pB)) 1 0 =
      some (some (Route.seg
        (pB + rotate (normalizationOf (pA - pB)) kAvoidanceRotation * kNodeRadius)
        (pA + rotate (normalizationOf (pB - pA)) (-kAvoidanceRotation) * kNodeRadius))) ∧
    segMidpoint
        (pA + rotate (normalizationOf (pB - pA)) kAvoidanceRotation * kNodeRadius)
        (pB + rotate (normalizationOf (pA - pB)) (-kAvoidanceRotation) * kNodeRadius) ≠
      segMidpoint
        (pB + rotate (normalizationOf (pA - pB)) kAvoidanceRotation * kNodeRadius)
        (pA + rotate (normalizationOf (pB - pA)) (-kAvoidanceRotation) * kNodeRadius) := by
  refine ⟨rfl, rfl, ?_⟩
  have hsub : pB - pA ≠ (⟨0, 0⟩ : GPoint) := sub_ne_zeroPt (fun h => hne h.symm)
  have hm : 0 < magnitudeOf (pB - pA) := magnitudeOf_pos hsub
  have hm0 : magnitudeOf (pB - pA) ≠ 0 := ne_of_gt hm
  have hmm : magnitudeOf (pA - pB) = magnitudeOf (pB - pA) := magnitudeOf_rev pA pB
  have hn1 : normalizationOf (pB - pA) =
      ⟨(pB.x - pA.x) / magnitudeOf (pB - pA), (pB.y - pA.y) / magnitudeOf (pB - pA)⟩ := by
    unfold normalizationOf
    rw [if_neg hm0]
    simp [GPoint.sub_def]
  have hn2 : normalizationOf (pA - pB) =
      ⟨(pA.x - pB.x) / magnitudeOf (pB - pA), (pA.y - pB.y) / magnitudeOf (pB - pA)⟩ := by
    unfold normalizationOf
    rw [hmm, if_neg hm0]
    simp [GPoint.sub_def]
  have hs : Real.sin kAvoidanceRotation = -(1 / 2) := by
    rw [kAvoidanceRotation, Real.sin_neg, Real.sin_pi_div_six]
  have hdiff : segMidpoint
        (pA + rotate (normalizationOf (pB - pA)) kAvoidanceRotation * kNodeRadius)
        (pB + rotate (normalizationOf (pA - pB)) (-kAvoidanceRotation) * kNodeRadius) -
      segMidpoint
        (pB + rotate (normalizationOf (pA - pB)) kAvoidanceRotation * kNodeRadius)
        (pA + rotate (normalizationOf (pB - pA)) (-kAvoidanceRotation) * kNodeRadius) =
      ⟨kNodeRadius * ((pB.y - pA.y) / magnitudeOf (pB - pA)),
       kNodeRadius * (-((pB.x - pA.x) / magnitudeOf (pB - pA)))⟩ := by
    rw [hn1, hn2]
    ext
    · simp only [segMidpoint, rotate, GPoint.add_def, GPoint.sub_def, GPoint.smul_def,
        Real.sin_neg, Real.cos_neg, hs]
      field_simp
      ring
    · simp only [segMidpoint, rotate, GPoint.add_def, GPoint.sub_def, GPoint.smul_def,
        Real.sin_neg, Real.cos_neg, hs]
      field_simp
      ring
  intro heq
  rw [heq] at hdiff
  have hzero : segMidpoint
        (pB + rotate (normalizationOf (pA - pB)) kAvoidanceRotation * kNodeRadius)
        (pA + rotate (normalizationOf (pB - pA)) (-kAvoidanceRotation) * kNodeRadius) -
      segMidpoint
        (pB + rotate (normalizationOf (pA - pB)) kAvoidanceRotation * kNodeRadius)
        (pA + rotate (normalizationOf (pB - pA)) (-kAvoidanceRotation) * kNodeRadius) =
      (⟨0, 0⟩ : GPoint) := by
    ext <;> simp
  rw [hzero] at hdiff
  have hx := congrArg GPoint.x hdiff
  have hy := congrArg GPoint.y hdiff
  simp only at hx hy
  have hrad : kNodeRadius ≠ 0 := by norm_num [kNodeRadius]
  have hbx : (pB.x - pA.x) / magnitudeOf (pB - pA) = 0 := by
    have := hy.symm
    rcases mul_eq_zero.1 (by linarith [this] :
        kNodeRadius * (-((pB.x - pA.x) / magnitudeOf (pB - pA))) = 0) with h | h
    · exact absurd h hrad
    · linarith [h]
  have hby : (pB.y - pA.y) / magnitudeOf (pB - pA) = 0 := by
    rcases mul_eq_zero.1 hx.symm with h | h
    · exact absurd h hrad
    · exact h
  have hbx0 : pB.x - pA.x = 0 := by
    rcases div_eq_zero_iff.1 hbx with h | h
    · exact h
    · exact absurd h hm0
  have hby0 : pB.y - pA.y = 0 := by
    rcases div_eq_zero_iff.1 hby with h | h
    · exact h
    · exact absurd h hm0
  apply hsub
  ext
  · simpa using hbx0
  · simpa using hby0

/-- Witness for `antiParallelSeparation` at a concrete input: nodes at
`(0,0)` and `(1,0)`. -/
theorem antiParallelSeparationWitness :
    ((⟨0, 0⟩ : GPoint) ≠ ⟨1, 0⟩) ∧
    segMidpoint
        ((⟨0, 0⟩ : GPoint) + rotate (normalizationOf ((⟨1, 0⟩ : GPoint) - ⟨0, 0⟩))
          kAvoidanceRotation * kNodeRadius)
        ((⟨1, 0⟩ : GPoint) + rotate (normalizationOf ((⟨0, 0⟩ : GPoint) - ⟨1, 0⟩))
          (-kAvoidanceRotation) * kNodeRadius) ≠
      segMidpoint
        ((⟨1, 0⟩ : GPoint) + rotate (normalizationOf ((⟨0, 0⟩ : GPoint) - ⟨1, 0⟩))
          kAvoidanceRotation * kNodeRadius)
        ((⟨0, 0⟩ : GPoint) + rotate (normalizationOf ((⟨1, 0⟩ : GPoint) - ⟨0, 0⟩))
          (-kAvoidanceRotation) * kNodeRadius) :=
  ⟨fun h => one_ne_zero (congrArg GPoint.x h).symm,
   (antiParallelSeparation ⟨0, 0⟩ ⟨1, 0⟩
      (fun h => one_ne_zero (congrArg GPoint.x h).symm)).2.2⟩

/-! ## Claim C9: the self-loop best-angle search -/

theorem backStart_lt {n : ℕ} (hn : 0 < n) (t : ℕ) : backStart n t < n := by
  induction t with
  | zero => simpa [backStart] using hn
  | succ k ih =>
      simp only [backStart]
      exact Nat.mod_lt _ hn

theorem fwdScan_inv (m t : ℕ) (l : List ℕ) :
    ∀ (i : ℕ) (st : ScanState),
      st.currStart ≤ i + l.length →
      st.bestStart ≤ i + l.length →
      st.currLength ≤ t + i →
      st.bestLength ≤ t + i →
      (fwdScan m l i st).currStart ≤ i + l.length ∧
      (fwdScan m l i st).bestStart ≤ i + l.length ∧
      (fwdScan m l i st).currLength ≤ t + (i + l.length) ∧
      (fwdScan m l i st).bestLength ≤ t + (i + l.length) := by
  induction l with
  | nil =>
      intro i st h1 h2 h3 h4
      simp only [fwdScan, List.length_nil, Nat.add_zero]
      exact ⟨h1, h2, h3, h4⟩
  | cons x rest ih =>
      intro i st h1 h2 h3 h4
      simp only [fwdScan, List.length_cons]
      simp only [List.length_cons] at h1 h2
      have hstep : (scanStep m i x st).currStart ≤ (i + 1) + rest.length ∧
          (scanStep m i x st).bestStart ≤ (i + 1) + rest.length ∧
          (scanStep m i x st).currLength ≤ t + (i + 1) ∧
          (scanStep m i x st).bestLength ≤ t + (i + 1) := by
        unfold scanStep
        split_ifs <;> dsimp only <;> refine ⟨?_, ?_, ?_, ?_⟩ <;> omega
      obtain ⟨a, b, c, d⟩ := ih (i + 1) (scanStep m i x st) hstep.1 hstep.2.1
        hstep.2.2.1 hstep.2.2.2
      refine ⟨by omega, by omega, by omega, by omega⟩

theorem fwdScan_P (m : ℕ) (l : List ℕ) :
    ∀ (i : ℕ) (st : ScanState), (1 ≤ st.bestLength ∨ 1 ≤ st.currLength) →
      1 ≤ (fwdScan m l i st).bestLength ∨ 1 ≤ (fwdScan m l i st).currLength := by
  induction l with
  | nil => intro i st h; simpa [fwdScan] using h
  | cons x rest ih =>
      intro i st h
      simp only [fwdScan]
      apply ih
      unfold scanStep
      split_ifs <;> dsimp only <;> omega

theorem fwdScan_P_of_mem (m : ℕ) (l : List ℕ) :
    ∀ (i : ℕ) (st : ScanState), m ∈ l →
      1 ≤ (fwdScan m l i st).bestLength ∨ 1 ≤ (fwdScan m l i st).currLength := by
  induction l with
  | nil => intro i st h; simp at h
  | cons x rest ih =>
      intro i st hm
      simp only [fwdScan]
      rcases List.mem_cons.1 hm with rfl | hm'
      · apply fwdScan_P
        unfold scanStep
        split_ifs with hx hlt
        · exact absurd rfl hx
        · exact absurd rfl hx
        · dsimp only; omega
      · exact ih (i + 1) _ hm'

theorem min_getD_mem (cs : List ℕ) (hne : cs ≠ []) : minOf cs ∈ cs := by
  unfold minOf
  cases h : cs.min? with
  | none => rw [List.min?_eq_none_iff] at h; exact absurd h hne
  | some a =>
      have := List.min?_mem (fun a b => min_choice a b) h
      simpa using this

theorem takeWhileLengthLe {α : Type} (p : α → Bool) (l : List α) :
    (l.takeWhile p).length ≤ l.length := by
  induction l with
  | nil => simp
  | cons a rest ih =>
      rw [List.takeWhile_cons]
      cases p a
      · simp
      · simp
        omega

theorem backCount_le (cs : List ℕ) (m : ℕ) : backCount cs m ≤ cs.length := by
  unfold backCount
  have h := takeWhileLengthLe (fun x => x == m) cs.reverse
  simpa using h

theorem runSearch_spec (cs : List ℕ) (hne : cs ≠ []) :
    1 ≤ (runSearch cs).2 ∧ (runSearch cs).1 ≤ cs.length ∧
    (runSearch cs).2 ≤ 2 * cs.length := by
  have hn : 0 < cs.length := List.length_pos.2 hne
  have hmem : minOf cs ∈ cs := min_getD_mem cs hne
  have htn : backCount cs (minOf cs) ≤ cs.length := backCount_le cs (minOf cs)
  simp only [runSearch]
  set st0 : ScanState :=
    ⟨0, 0, backStart cs.length (backCount cs (minOf cs)), backCount cs (minOf cs)⟩
    with hst0
  have h1 : st0.currStart ≤ 0 + cs.length := by
    rw [hst0]
    dsimp only
    have := backStart_lt hn (backCount cs (minOf cs))
    omega
  have h2 : st0.bestStart ≤ 0 + cs.length := by rw [hst0]; dsimp only; omega
  have h3 : st0.currLength ≤ backCount cs (minOf cs) + 0 := by
    rw [hst0]; dsimp only; omega
  have h4 : st0.bestLength ≤ backCount cs (minOf cs) + 0 := by
    rw [hst0]; dsimp only; omega
  obtain ⟨ha, hb, hc, hd⟩ :=
    fwdScan_inv (minOf cs) (backCount cs (minOf cs)) cs 0 st0 h1 h2 h3 h4
  have hP := fwdScan_P_of_mem (minOf cs) cs 0 st0 hmem
  set st := fwdScan (minOf cs) cs 0 st0 with hst
  by_cases hfix : st.bestLength < st.currLength
  · rw [if_pos hfix]
    dsimp only
    refine ⟨by omega, by omega, by omega⟩
  · rw [if_neg hfix]
    dsimp only
    refine ⟨by omega, by omega, by omega⟩

/-- The collision array always has exactly 36 entries. -/
theorem collisionHeights_length (center : GPoint) (lines : List (GPoint × GPoint))
    (circles : List (GPoint × ℝ)) :
    (collisionHeights center lines circles).length = 36 := by
  simp [collisionHeights, degAngles, numAngleSamples]

/-- With no occupied lines every candidate angle scores zero collisions. -/
theorem collisionHeights_nil (center : GPoint) (circles : List (GPoint × ℝ)) :
    collisionHeights center [] circles = List.replicate 36 0 := by
  unfold collisionHeights
  rw [show (fun (degAngle : ℤ) =>
      collisionsBetween (center + unitToward ((degAngle : ℝ) * Real.pi / 180) * kNodeRadius)
        kLoopTransitionRadius [] circles) = (fun _ : ℤ => 0) from ?_]
  · rfl
  · funext degAngle
    simp [collisionsBetween, collisionsBetweenLines, collisionsBetweenCircles]

/-- C9: the best-angle search is total and always produces the midpoint of
a genuine run of minima: for every center and every configuration of
occupied lines and circles there are a run start `s ≤ 36` and a run length
`1 ≤ L ≤ 72` with the returned angle equal to the midpoint of the
corresponding low/high sampled angles (a finite value in a fixed bounded
range; in particular the `size_t` wraparound hazard in
`bestStart + bestLength - 1` never fires). In the fully degenerate case in
which every candidate ties (e.g. no occupied lines), the search returns
exactly `350°` in radians; no error is raised anywhere. -/
theorem bestThetaTotalAndDegenerate :
    (∀ (center : GPoint) (lines : List (GPoint × GPoint))
        (circles : List (GPoint × ℝ)),
      ∃ s L : ℕ, 1 ≤ L ∧ s ≤ 36 ∧ L ≤ 72 ∧
        bestThetaFor center lines circles =
          (((kLowAngle : ℝ) + ((s * 10 : ℕ) : ℝ)) * Real.pi / 180 +
           ((kLowAngle : ℝ) + ((s + L - 1 : ℕ) : ℝ) * 10) * Real.pi / 180) / 2) ∧
    (∀ (center : GPoint) (circles : List (GPoint × ℝ)),
      bestThetaFor center [] circles = 350 * Real.pi / 180) := by
  constructor
  · intro center lines circles
    have hlen := collisionHeights_length center lines circles
    have hne : collisionHeights center lines circles ≠ [] := by
      intro h; rw [h] at hlen; simp at hlen
    obtain ⟨hL1, hs, hL⟩ := runSearch_spec (collisionHeights center lines circles) hne
    rw [hlen] at hs hL
    refine ⟨(runSearch (collisionHeights center lines circles)).1,
      (runSearch (collisionHeights center lines circles)).2, hL1, hs, by omega, ?_⟩
    simp only [bestThetaFor]
    have hidx : ((runSearch (collisionHeights center lines circles)).1 +
        (runSearch (collisionHeights center lines circles)).2 + (2 ^ 64 - 1)) % 2 ^ 64 =
        (runSearch (collisionHeights center lines circles)).1 +
        (runSearch (collisionHeights center lines circles)).2 - 1 := by
      omega
    rw [hidx]
  · intro center circles
    simp only [bestThetaFor, collisionHeights_nil]
    have hrs : runSearch (List.replicate 36 0) = (0, 72) := by rfl
    rw [hrs]
    have hidx : ((0 : ℕ) + 72 + (2 ^ 64 - 1)) % 2 ^ 64 = 71 := by omega
    simp only [hidx]
    rw [kLowAngle]
    push_cast
    ring

end GraphEditor
